import Mathlib

/-!
Verification development for the NWP availability-polling download scheduler
(`solarforecastarbiter/io/fetch/nwp.py`).

The Python source is shallowly embedded: each async function becomes a pure
Lean function over explicit state (filesystem contents, a network oracle, and
a logical clock advanced by the sleeps in the source).  Timestamps are Int
hours since the Unix epoch, computed from calendar dates with the standard
civil-calendar day-count algorithm (matching pandas Timestamp ordering and
hour arithmetic, which is all the scheduler uses).
-/

set_option linter.unusedVariables false

instance {α β : Type} [DecidableEq α] [DecidableEq β] : DecidableEq (Except α β) :=
  fun a b =>
    match a, b with
    | .error x, .error y =>
      if h : x = y then .isTrue (h ▸ rfl)
      else .isFalse (by intro hc; injection hc; exact h ‹_›)
    | .ok x, .ok y =>
      if h : x = y then .isTrue (h ▸ rfl)
      else .isFalse (by intro hc; injection hc; exact h ‹_›)
    | .error _, .ok _ => .isFalse (by intro hc; exact Except.noConfusion hc)
    | .ok _, .error _ => .isFalse (by intro hc; exact Except.noConfusion hc)

/-! Retry machinery: `get_with_retries` (nwp.py lines 277-318)

One call of `get_func` is summarized by its outcome: a successful value, one
of the three caught transient aiohttp exceptions (`ClientResponseError`,
`ClientPayloadError`, `ClientOSError`), or any other exception.  The sequence
of outcomes the network would produce is the oracle `f : Nat → CallOutcome α`
(the k-th call returns `f k`).
-/

inductive CallOutcome (α : Type) where
  | ok (v : α)
  | respError
  | payloadError
  | osError
  | otherError
deriving DecidableEq

def CallOutcome.isTransient {α : Type} : CallOutcome α → Bool
  | .respError => true
  | .payloadError => true
  | .osError => true
  | _ => false

inductive TransientKind where
  | resp
  | payload
  | os
deriving DecidableEq

/-- Result of running the retry loop: the value (on success) or the kind of
exception that escaped, together with how many calls to `get_func` were made
and how many 60-second inter-attempt sleeps were performed. -/
inductive RetryResult (α : Type) where
  | success (v : α) (calls sleeps : Nat)
  | transientRaised (e : TransientKind) (calls sleeps : Nat)
  | otherRaised (calls sleeps : Nat)
deriving DecidableEq

def RetryResult.callCount {α : Type} : RetryResult α → Nat
  | .success _ c _ => c
  | .transientRaised _ c _ => c
  | .otherRaised c _ => c

def RetryResult.sleepCount {α : Type} : RetryResult α → Nat
  | .success _ _ s => s
  | .transientRaised _ _ s => s
  | .otherRaised _ s => s

def RetryResult.raisedTransient {α : Type} : RetryResult α → Bool
  | .transientRaised _ _ _ => true
  | _ => false

def RetryResult.isSuccess {α : Type} : RetryResult α → Bool
  | .success _ _ _ => true
  | _ => false

/-- The `while True` loop of `get_with_retries`.  The source counts failures
upward (`retried`) and re-raises once `retried + 1 >= retries` would hold
after the increment; here the equivalent remaining budget
`retries - 1 - retried` counts down, so the loop re-raises exactly when
`budget = 0`.  A transient outcome with budget left sleeps 60s and retries;
any other exception is not caught and escapes at once. -/
def run_retries {α : Type} (f : Nat → CallOutcome α) (budget call sleeps : Nat) :
    RetryResult α :=
  match budget, f call with
  | _, .ok v => .success v (call + 1) sleeps
  | _, .otherError => .otherRaised (call + 1) sleeps
  | 0, .respError => .transientRaised .resp (call + 1) sleeps
  | b + 1, .respError => run_retries f b (call + 1) (sleeps + 1)
  | 0, .payloadError => .transientRaised .payload (call + 1) sleeps
  | b + 1, .payloadError => run_retries f b (call + 1) (sleeps + 1)
  | 0, .osError => .transientRaised .os (call + 1) sleeps
  | b + 1, .osError => run_retries f b (call + 1) (sleeps + 1)

/-- Model of `get_with_retries(get_func, retries=retries)`: run the loop with
`retried = 0`, i.e. a remaining budget of `retries - 1` further attempts
after the first. -/
def get_with_retries {α : Type} (f : Nat → CallOutcome α) (retries : Nat) :
    RetryResult α :=
  run_retries f (retries - 1) 0 0

/-! Paths and the grib2 suffix rule: `fetch_grib_files` (nwp.py lines 449-495)

A local path is its directory components plus a final name.  The name
manipulation in the source uses `pathlib.Path.suffix` / `with_suffix`, which
are reproduced here on `List Char`: the suffix is the part of the name from
its last dot on, provided that dot is neither the first nor the last
character of the name (pathlib's rule), and `with_suffix` replaces it. -/

def grib2Suffix : List Char := ['.', 'g', 'r', 'i', 'b', '2']

def tmpMark : List Char := ['.', 't', 'm', 'p', '_']

/-- Python `pathlib.PurePath.suffix` on a file name: the substring from the
last dot, when that dot is at an index i with 0 < i < len - 1; otherwise
empty. -/
def pySuffix (name : List Char) : List Char :=
  if (name.reverse.takeWhile (fun c => c ≠ '.')).length + 1 < name.length ∧
      name.reverse.takeWhile (fun c => c ≠ '.') ≠ [] then
    '.' :: (name.reverse.takeWhile (fun c => c ≠ '.')).reverse
  else []

/-- Python `pathlib.PurePath.with_suffix`: drop the old suffix (if any) and
append the new one. -/
def pyWithSuffix (name suffix : List Char) : List Char :=
  name.take (name.length - (pySuffix name).length) ++ suffix

/-- Lines 482-485: the final name of the local grib file.  If the name's
suffix is not .grib2, the source replaces it with itself plus .grib2. -/
def fetch_filename_name (file : List Char) : List Char :=
  if pySuffix file = grib2Suffix then file
  else pyWithSuffix file (pySuffix file ++ grib2Suffix)

def pad2 (n : Nat) : String :=
  if n < 10 then "0" ++ toString n else toString n

def pad4 (n : Nat) : String :=
  if n < 10 then "000" ++ toString n
  else if n < 100 then "00" ++ toString n
  else if n < 1000 then "0" ++ toString n
  else toString n

/-- A model initialization time, as used by strftime in the fetch path. -/
structure InitTime where
  y : Nat
  m : Nat
  d : Nat
  h : Nat
deriving DecidableEq

/-- init_time.strftime of the Y/m/d/H directory components. -/
def strfYMDH (it : InitTime) : List String :=
  [pad4 it.y, pad2 it.m, pad2 it.d, pad2 it.h]

/-- A local filesystem path: directory components and the final name. -/
structure PyPath where
  parent : List String
  name : List Char
deriving DecidableEq

/-- Line 482: the full local path fetch_grib_files saves to. -/
def fetchTargetPath (basepath : List String) (it : InitTime) (file : List Char) :
    PyPath :=
  { parent := basepath ++ strfYMDH it, name := fetch_filename_name file }

/-- Result of one fetch_grib_files call: the returned path (or the escaped
exception), the filesystem afterwards, and how many network requests
(calls of _get_file) were made. -/
structure FetchResult where
  result : Except Unit PyPath
  files : List PyPath
  netCalls : Nat

/-- Model of `fetch_grib_files(session, params, basepath, init_time, chunksize)`.
The filesystem is the list of existing files; the network is the oracle
`net` consumed by get_with_retries around `_get_file` (default retries=5).
If the final path exists the function returns it at once.  Otherwise the
download streams into the dot-tmp-marked sibling and renames it into place
on success; on an escaped error the temporary file is left behind and the
exception propagates. -/
def tmpSibling (p : PyPath) : PyPath :=
  { parent := p.parent, name := tmpMark ++ p.name }

def fetch_grib_files (files : List PyPath) (net : Nat → CallOutcome Unit)
    (basepath : List String) (it : InitTime) (file : List Char) : FetchResult :=
  if fetchTargetPath basepath it file ∈ files then
    { result := .ok (fetchTargetPath basepath it file), files := files, netCalls := 0 }
  else
    match get_with_retries net 5 with
    | .success _ c _ =>
      { result := .ok (fetchTargetPath basepath it file),
        files := files ++ [fetchTargetPath basepath it file], netCalls := c }
    | .transientRaised _ c _ =>
      { result := .error (),
        files := files ++ [tmpSibling (fetchTargetPath basepath it file)], netCalls := c }
    | .otherRaised c _ =>
      { result := .error (),
        files := files ++ [tmpSibling (fetchTargetPath basepath it file)], netCalls := c }

/-! Rollover detection: `check_next_inittime` (nwp.py lines 366-389)

The HEAD probe of a remote file either yields an HTTP status, or raises
`aiohttp.ClientOSError` (the only exception the source catches there), or
raises some other exception.  A remote file target is identified by the run
timestamp (Int hours) and the valid-hour offset. -/

inductive HeadOutcome where
  | status (code : Nat)
  | clientOSError
  | otherExc
deriving DecidableEq

/-- Model of `check_next_inittime(session, init_time, model)`: probe the offset-0 file
of the run at `t + freq`.  Status 200 means the next run is available; any
other status returns false; `ClientOSError` is caught and returns false; any
other exception is not caught and propagates (`.error`). -/
def check_next_inittime (probe : Int → Nat → HeadOutcome) (freq t : Int) :
    Except Unit Bool :=
  match probe (t + freq) 0 with
  | .status code => .ok (code == 200)
  | .clientOSError => .ok false
  | .otherExc => .error ()

/-! The polling generator and one run of the loop
(`files_to_retrieve`, nwp.py lines 392-434, and `_run_loop`, lines 642-668)

The environment supplies, for every value of the logical clock, the HEAD
result for each of this run's targets (`some mtime` for a 200 response with
that Last-Modified value, `none` for the caught not-ready outcomes
ClientOSError/ClientResponseError), and the HEAD outcome for the next run's
offset-0 file used by check_next_inittime.  The clock starts at `t0` and
advances by `dt` seconds (`time_between_fcst_hrs`) at each sleep; the HEAD
requests themselves are instantaneous. -/

structure PollEnv where
  probe : Int → Nat → Option Int
  nextHead : Int → Int → Nat → HeadOutcome

/-- How one traversal of the files_to_retrieve generator ended: all targets
yielded (normal exhaustion), early return because the next run was available
(rollover), an uncaught exception from the rollover probe, or out of model
fuel (the source loop has no bound of its own). -/
inductive FTRResult where
  | completed (yielded : List Nat) (clock : Int)
  | abandoned (yielded : List Nat) (clock : Int)
  | aborted (yielded : List Nat)
  | outOfFuel (yielded : List Nat)
deriving DecidableEq

/-- The body of `files_to_retrieve`: iterate over the planned targets in
order; poll each until its HEAD succeeds, recording the first success's
Last-Modified time as the run anchor `fm`; once the clock passes
`fm + maxRun`, consult check_next_inittime and return early when it says the
next run is ready; otherwise sleep `dt` and re-probe. -/
def files_to_retrieve (env : PollEnv) (maxRun dt freq trun : Int) :
    Nat → List Nat → Option Int → Int → List Nat → FTRResult
  | 0, _, _, _, acc => .outOfFuel acc
  | _ + 1, [], _, clock, acc => .completed acc clock
  | fuel + 1, tgt :: rest, fm, clock, acc =>
    match env.probe clock tgt with
    | some mt =>
      files_to_retrieve env maxRun dt freq trun fuel rest (some (fm.getD mt)) clock
        (acc ++ [tgt])
    | none =>
      match fm with
      | some anchor =>
        if anchor + maxRun < clock then
          match check_next_inittime (env.nextHead clock) freq trun with
          | .error _ => .aborted acc
          | .ok true => .abandoned acc clock
          | .ok false =>
            files_to_retrieve env maxRun dt freq trun fuel (tgt :: rest) fm (clock + dt) acc
        else
          files_to_retrieve env maxRun dt freq trun fuel (tgt :: rest) fm (clock + dt) acc
      | none =>
        files_to_retrieve env maxRun dt freq trun fuel (tgt :: rest) fm (clock + dt) acc

/-- What one iteration of `_run_loop`'s while-body did after the generator
finished: the files fetched, whether the generator ended by rollover, and
whether conversion, optimization, the final artifact and the grib cleanup
happened.  `raised` records an exception escaping the convert/optimize
block. -/
structure RunReport where
  fetched : List Nat
  abandoned : Bool
  convCalled : Bool
  optCalled : Bool
  artifact : Bool
  gribsDeleted : Bool
  raised : Bool
deriving DecidableEq

/-- Lines 650-663: gather the fetch tasks (assumed here to all succeed; a
failed fetch aborts the whole process via abort_all_on_exception) and, when
at least one file was fetched, convert to netCDF and optimize; on success
delete the grib files.  `convOk`/`optOk` are the oracles for the two
external collaborators. -/
def finishRun (ys : List Nat) (ab convOk optOk : Bool) : RunReport :=
  if ys.length ≠ 0 then
    { fetched := ys, abandoned := ab, convCalled := true, optCalled := convOk,
      artifact := convOk && optOk, gribsDeleted := convOk && optOk,
      raised := !(convOk && optOk) }
  else
    { fetched := ys, abandoned := ab, convCalled := false, optCalled := false,
      artifact := false, gribsDeleted := false, raised := false }

/-- One iteration of the while-loop of `_run_loop` for the run at `trun`:
drain files_to_retrieve, then post-process.  `none` when the model ran out
of fuel or the generator raised. -/
def run_once (env : PollEnv) (maxRun dt freq trun : Int) (fuel : Nat)
    (targets : List Nat) (t0 : Int) (convOk optOk : Bool) : Option RunReport :=
  match files_to_retrieve env maxRun dt freq trun fuel targets none t0 [] with
  | .completed ys _ => some (finishRun ys false convOk optOk)
  | .abandoned ys _ => some (finishRun ys true convOk optOk)
  | .aborted _ => none
  | .outOfFuel _ => none

/-- A concrete environment in which target 0 is ready at once (Last-Modified
0), target 1 never becomes ready, and the next run's first file answers 200:
the run is abandoned mid-way with one file already fetched. -/
def envRollover : PollEnv :=
  { probe := fun _ tgt => if tgt = 0 then some 0 else none,
    nextHead := fun _ _ _ => .status 200 }

/-! Optimization step: `optimize_netcdf` (nwp.py lines 559-579)

Paths are opaque names here; the filesystem is the list of existing files.
`tmp_path` is the fresh name mkstemp creates in final_path's directory and
`nctmpfile` is the intermediate netCDF produced by the conversion step.
`optOk` is the oracle for `_optimize_netcdf` run in the executor. -/

structure OptResult where
  raised : Bool
  files : List String
deriving DecidableEq

/-- Model of `optimize_netcdf(nctmpfile, final_path)`: mkstemp creates tmp_path; on
success tmp_path is renamed to final_path (then chmod); on failure tmp_path
is unlinked and the exception re-raised; in both cases the finally block
unlinks nctmpfile. -/
def optimize_netcdf (files : List String) (nctmpfile final_path tmp_path : String)
    (optOk : Bool) : OptResult :=
  let files1 := tmp_path :: files
  if optOk then
    { raised := false,
      files := ((files1.erase tmp_path) ++ [final_path]).erase nctmpfile }
  else
    { raised := true, files := (files1.erase tmp_path).erase nctmpfile }

/-! Startup resume and the next run:
`startup_find_next_runtime` (nwp.py lines 594-628) and `next_run_time`
(lines 631-639)

Remote run directories parsed from the index page are 8-digit dates or
10-digit date+hours.  A run is identified by its calendar components
(y, m, d, h); its timestamp in hours uses the standard civil-calendar
day-count algorithm, which matches the ordering and hour arithmetic of
pandas Timestamps.  The local state is the list of runs whose final .nc
artifact (`model['filename']` under Y/m/d/H) exists. -/

/-- Days from 1970-01-01 of a proleptic-Gregorian date (the standard
days-from-civil algorithm). -/
def daysFromCivil (y m d : Int) : Int :=
  let y2 := if m ≤ 2 then y - 1 else y
  let era := (if 0 ≤ y2 then y2 else y2 - 399) / 400
  let yoe := y2 - era * 400
  let doy := (153 * (m + (if 2 < m then -3 else 9)) + 2) / 5 + d - 1
  let doe := yoe * 365 + yoe / 4 - yoe / 100 + doy
  era * 146097 + doe - 719468

/-- Timestamp of a run, in hours since the epoch. -/
def tsHours (y m d h : Int) : Int :=
  daysFromCivil y m d * 24 + h

/-- Line 599: the sentinel `first = pd.Timestamp('20000101T0000Z')`. -/
def firstTS : Int := tsHours 2000 1 1 0

/-- A run: (year, month, day, init hour). -/
abbrev Run4 := Int × Int × Int × Int

def ts4 : Run4 → Int
  | (y, m, d, h) => tsHours y m d h

/-- A remote run directory discovered on the index page: an 8-digit date
(one directory covering every init hour of the day) or a 10-digit
date+hour. -/
inductive DirEntry where
  | d8 (y m d : Int)
  | d10 (y m d h : Int)
deriving DecidableEq

/-- Python `range(0, 24, step)` (the source never calls it with step 0). -/
def rangeStep (stop step : Nat) : List Nat :=
  if step = 0 then [] else List.range' 0 ((stop + step - 1) / step) step

/-- The body shared by both branches of the directory scan: a run with a
local artifact feeds the running maximum; one without is appended to the
no_file list. -/
def scanStep (arts : List Run4) (acc : List Int × Int) (r : Run4) : List Int × Int :=
  if r ∈ arts then (acc.1, max acc.2 (ts4 r))
  else (acc.1 ++ [ts4 r], acc.2)

/-- Lines 598-617: walk the discovered directories, expanding an 8-digit
date into all init hours at the model's update frequency, and build the
no_file list and the max_time of runs that already have artifacts. -/
def startup_scan (arts : List Run4) (freqH : Nat) (dirs : List DirEntry) :
    List Int × Int :=
  dirs.foldl (fun acc dir =>
    match dir with
    | .d8 y m d =>
      (rangeStep 24 freqH).foldl (fun a hr => scanStep arts a (y, m, d, (hr : Int))) acc
    | .d10 y m d h => scanStep arts acc (y, m, d, h)) ([], firstTS)

/-- Model of `startup_find_next_runtime(model_path, session, model)` (the sleep before
returning only affects timing): if every discovered run has an artifact,
return the latest one plus one update interval, unless max_time still equals
the sentinel, in which case a ValueError is raised; otherwise return the
minimum of the no_file list. -/
def startup_find_next_runtime (arts : List Run4) (freqH : Nat)
    (dirs : List DirEntry) : Except Unit Int :=
  match startup_scan arts freqH dirs with
  | (no_file, max_time) =>
    match no_file with
    | [] =>
      if firstTS < max_time then .ok (max_time + (freqH : Int)) else .error ()
    | x :: xs => .ok (xs.foldl min x)

/-- The runs a directory entry stands for, in scan order. -/
def dirRuns (freqH : Nat) : DirEntry → List Run4
  | .d8 y m d => (rangeStep 24 freqH).map (fun hr => (y, m, d, (hr : Int)))
  | .d10 y m d h => [(y, m, d, h)]

/-- All runs discovered from the directory listing, in scan order. -/
def discoveredRuns (freqH : Nat) : List DirEntry → List Run4
  | [] => []
  | dir :: rest => dirRuns freqH dir ++ discoveredRuns freqH rest

/-- The discovered runs that have no local artifact, in scan order. -/
def incompleteRuns (arts : List Run4) (freqH : Nat) (dirs : List DirEntry) :
    List Run4 :=
  (discoveredRuns freqH dirs).filter (fun r => decide (r ∉ arts))

/-- Python min over a nonempty list (0 is never used: the source only takes
min of the nonempty no_file list). -/
def minI : List Int → Int
  | [] => 0
  | x :: xs => xs.foldl min x

/-- Model of `next_run_time(inittime, modelpath, model)`: step forward one update
interval and recurse past runs whose artifact already exists.  `hasArtifact`
is existence of `modelpath/Y/m/d/H/filename` for the run at that timestamp;
the source recursion has no bound, so fuel models it (`none` = the
recursion never reached a missing artifact within the fuel). -/
def next_run_time (hasArtifact : Int → Bool) (freq : Int) :
    Nat → Int → Option Int
  | 0, _ => none
  | fuel + 1, inittime =>
    if hasArtifact (inittime + freq) then
      next_run_time hasArtifact freq fuel (inittime + freq)
    else some (inittime + freq)

/-! Lemmas and claim theorems -/

theorem run_retries_all_transient {α : Type} (f : Nat → CallOutcome α)
    (h : ∀ k, (f k).isTransient = true) :
    ∀ budget call sleeps, ∃ e, run_retries f budget call sleeps =
      RetryResult.transientRaised e (call + budget + 1) (sleeps + budget) := by
  intro budget
  induction budget with
  | zero =>
    intro call sleeps
    have hc := h call
    cases hfc : f call with
    | ok v => rw [hfc] at hc; simp [CallOutcome.isTransient] at hc
    | otherError => rw [hfc] at hc; simp [CallOutcome.isTransient] at hc
    | respError => exact ⟨.resp, by simp [run_retries, hfc]⟩
    | payloadError => exact ⟨.payload, by simp [run_retries, hfc]⟩
    | osError => exact ⟨.os, by simp [run_retries, hfc]⟩
  | succ b ih =>
    intro call sleeps
    have hc := h call
    obtain ⟨e, he⟩ := ih (call + 1) (sleeps + 1)
    have harith : call + 1 + b + 1 = call + (b + 1) + 1 := by omega
    have harith2 : sleeps + 1 + b = sleeps + (b + 1) := by omega
    cases hfc : f call with
    | ok v => rw [hfc] at hc; simp [CallOutcome.isTransient] at hc
    | otherError => rw [hfc] at hc; simp [CallOutcome.isTransient] at hc
    | respError =>
      refine ⟨e, ?_⟩
      rw [show run_retries f (b + 1) call sleeps =
        run_retries f b (call + 1) (sleeps + 1) by simp [run_retries, hfc]]
      rw [he, harith, harith2]
    | payloadError =>
      refine ⟨e, ?_⟩
      rw [show run_retries f (b + 1) call sleeps =
        run_retries f b (call + 1) (sleeps + 1) by simp [run_retries, hfc]]
      rw [he, harith, harith2]
    | osError =>
      refine ⟨e, ?_⟩
      rw [show run_retries f (b + 1) call sleeps =
        run_retries f b (call + 1) (sleeps + 1) by simp [run_retries, hfc]]
      rw [he, harith, harith2]

/-- Claim C3 as frozen is false at retries = 0: a get_func that always fails
with ClientResponseError is still called once (the loop body runs before the
bound is tested), not zero times. -/
theorem retry_zero_retries_calls_once_cex :
    (get_with_retries (fun _ => (CallOutcome.respError : CallOutcome Unit)) 0).callCount
        = 1 ∧
    (get_with_retries (fun _ => (CallOutcome.respError : CallOutcome Unit)) 0).callCount
        ≠ 0 := by
  decide

/-- Claim C3 (amended): for every get_func that fails on every call with a
transient error (aiohttp ClientResponseError, ClientPayloadError, or
ClientOSError), get_with_retries with retry bound retries calls get_func
exactly max retries 1 times — i.e. exactly retries times whenever
retries ≥ 1, as with the default bound 5 — then re-raises the transient
error to the caller; no successful result is ever returned. -/
theorem retry_exhaustion_bound {α : Type} (f : Nat → CallOutcome α) (retries : Nat)
    (h : ∀ k, (f k).isTransient = true) :
    (get_with_retries f retries).raisedTransient = true ∧
    (get_with_retries f retries).callCount = max retries 1 ∧
    (get_with_retries f retries).isSuccess = false := by
  obtain ⟨e, he⟩ := run_retries_all_transient f h (retries - 1) 0 0
  unfold get_with_retries
  rw [he]
  refine ⟨rfl, ?_, rfl⟩
  simp [RetryResult.callCount]
  omega

theorem retry_exhaustion_bound_witness :
    (get_with_retries (fun _ => (CallOutcome.respError : CallOutcome Unit)) 5).raisedTransient
        = true ∧
    (get_with_retries (fun _ => (CallOutcome.respError : CallOutcome Unit)) 5).callCount
        = max 5 1 ∧
    (get_with_retries (fun _ => (CallOutcome.respError : CallOutcome Unit)) 5).isSuccess
        = false :=
  retry_exhaustion_bound (fun _ => CallOutcome.respError) 5 (fun _ => rfl)

theorem run_retries_reaches_other {α : Type} (f : Nat → CallOutcome α) :
    ∀ k budget call sleeps, k ≤ budget →
    (∀ j, j < k → (f (call + j)).isTransient = true) →
    f (call + k) = .otherError →
    run_retries f budget call sleeps = .otherRaised (call + k + 1) (sleeps + k) := by
  intro k
  induction k with
  | zero =>
    intro budget call sleeps _ _ hother
    rw [Nat.add_zero] at hother
    cases budget <;> simp [run_retries, hother]
  | succ k ih =>
    intro budget call sleeps hb hpre hother
    have h0 : (f call).isTransient = true := by
      have := hpre 0 (by omega)
      rwa [Nat.add_zero] at this
    obtain ⟨b, rfl⟩ : ∃ b, budget = b + 1 := ⟨budget - 1, by omega⟩
    have hpre2 : ∀ j, j < k → (f (call + 1 + j)).isTransient = true := by
      intro j hj
      have e : call + 1 + j = call + (j + 1) := by omega
      rw [e]
      exact hpre (j + 1) (by omega)
    have hother2 : f (call + 1 + k) = .otherError := by
      have e : call + 1 + k = call + (k + 1) := by omega
      rw [e]
      exact hother
    have hrec := ih b (call + 1) (sleeps + 1) (by omega) hpre2 hother2
    have harith : call + 1 + k + 1 = call + (k + 1) + 1 := by omega
    have harith2 : sleeps + 1 + k = sleeps + (k + 1) := by omega
    cases hfc : f call with
    | ok v => rw [hfc] at h0; simp [CallOutcome.isTransient] at h0
    | otherError => rw [hfc] at h0; simp [CallOutcome.isTransient] at h0
    | respError =>
      rw [show run_retries f (b + 1) call sleeps =
        run_retries f b (call + 1) (sleeps + 1) by simp [run_retries, hfc]]
      rw [hrec, harith, harith2]
    | payloadError =>
      rw [show run_retries f (b + 1) call sleeps =
        run_retries f b (call + 1) (sleeps + 1) by simp [run_retries, hfc]]
      rw [hrec, harith, harith2]
    | osError =>
      rw [show run_retries f (b + 1) call sleeps =
        run_retries f b (call + 1) (sleeps + 1) by simp [run_retries, hfc]]
      rw [hrec, harith, harith2]

/-- Claim C10: get_with_retries retries only aiohttp ClientResponseError,
ClientPayloadError and ClientOSError; an attempt that fails with any other
exception (here the k-th call, after k transient failures still inside the
retry bound) makes the error propagate at once: get_func has been called
exactly k+1 times and the only sleeps are the k earlier inter-retry delays —
no retry and no delay follow the other exception. -/
theorem retry_other_exception_propagates {α : Type} (f : Nat → CallOutcome α)
    (retries k : Nat) (hk : k < retries)
    (hpre : ∀ j, j < k → (f j).isTransient = true)
    (hother : f k = .otherError) :
    get_with_retries f retries = .otherRaised (k + 1) k := by
  have h := run_retries_reaches_other f k (retries - 1) 0 0 (by omega)
    (fun j hj => by rw [Nat.zero_add]; exact hpre j hj)
    (by rw [Nat.zero_add]; exact hother)
  unfold get_with_retries
  rw [h]
  congr 1 <;> omega

theorem retry_other_exception_propagates_witness :
    get_with_retries (fun _ => (CallOutcome.otherError : CallOutcome Unit)) 5 =
      .otherRaised 1 0 := by
  have h := retry_other_exception_propagates
    (fun _ => (CallOutcome.otherError : CallOutcome Unit)) 5 0 (by omega)
    (fun j hj => absurd hj (Nat.not_lt_zero j)) rfl
  simpa using h

theorem dropWhile_head_not {α : Type} (p : α → Bool) :
    ∀ (l : List α) (c : α) (t : List α), l.dropWhile p = c :: t → p c = false := by
  intro l
  induction l with
  | nil => intro c t h; simp [List.dropWhile] at h
  | cons a l ih =>
    intro c t h
    simp only [List.dropWhile] at h
    cases hp : p a with
    | true => rw [hp] at h; exact ih c t h
    | false => rw [hp] at h; injection h with h1 _; rw [← h1]; exact hp

theorem pySuffix_isSuffix (name : List Char) : pySuffix name <:+ name := by
  rw [pySuffix]
  split
  next hcond =>
    have hsplit := List.takeWhile_append_dropWhile
      (p := fun c => decide (c ≠ '.')) (l := name.reverse)
    cases hrest : name.reverse.dropWhile (fun c => decide (c ≠ '.')) with
    | nil =>
      exfalso
      rw [hrest, List.append_nil] at hsplit
      have hlen := congrArg List.length hsplit
      rw [List.length_reverse] at hlen
      omega
    | cons c t =>
      have hc := dropWhile_head_not _ _ _ _ hrest
      have hcdot : c = '.' := by simpa using hc
      subst hcdot
      rw [hrest] at hsplit
      have hname := congrArg List.reverse hsplit
      rw [List.reverse_reverse, List.reverse_append, List.reverse_cons,
        List.append_assoc, List.singleton_append] at hname
      exact ⟨t.reverse, hname⟩
  next => exact List.nil_suffix

theorem pyWithSuffix_self (name s : List Char) :
    pyWithSuffix name (pySuffix name ++ s) = name ++ s := by
  have hsuf := pySuffix_isSuffix name
  rw [pyWithSuffix]
  generalize pySuffix name = ps at hsuf ⊢
  obtain ⟨pre, hpre⟩ := hsuf
  subst hpre
  rw [List.length_append]
  rw [show pre.length + ps.length - ps.length = pre.length by omega]
  rw [List.take_left, List.append_assoc]

theorem fetch_filename_name_grib2 (file : List Char) :
    grib2Suffix <:+ fetch_filename_name file ∧
    (¬ grib2Suffix <:+ file → fetch_filename_name file = file ++ grib2Suffix) := by
  rw [fetch_filename_name]
  split
  next heq =>
    constructor
    · rw [← heq]; exact pySuffix_isSuffix file
    · intro hnot; exact absurd (heq ▸ pySuffix_isSuffix file) hnot
  next =>
    rw [pyWithSuffix_self]
    exact ⟨List.suffix_append file grib2Suffix, fun _ => rfl⟩

/-- Claim C9: for every params, the local path returned by fetch_grib_files
ends in .grib2; when the remote name in params does not already end in
.grib2 the saved name is exactly the remote name with .grib2 appended (so
local and remote names may differ). -/
theorem fetch_path_grib2_suffix (files : List PyPath) (net : Nat → CallOutcome Unit)
    (basepath : List String) (it : InitTime) (file : List Char) (p : PyPath)
    (h : (fetch_grib_files files net basepath it file).result = .ok p) :
    grib2Suffix <:+ p.name ∧
    (¬ grib2Suffix <:+ file → p.name = file ++ grib2Suffix) := by
  have hname : p.name = fetch_filename_name file := by
    rw [fetch_grib_files] at h
    split at h
    · simp only [FetchResult.mk.injEq] at h
      injection h with h1
      rw [← h1]
      rfl
    · cases hg : get_with_retries net 5 with
      | success v c s =>
        rw [hg] at h
        simp only [] at h
        injection h with h1
        rw [← h1]
        rfl
      | transientRaised e c s =>
        rw [hg] at h
        exact absurd h (by simp)
      | otherRaised c s =>
        rw [hg] at h
        exact absurd h (by simp)
  rw [hname]
  exact fetch_filename_name_grib2 file

theorem fetch_path_grib2_suffix_witness :
    grib2Suffix <:+ (fetchTargetPath [] ⟨2020, 1, 2, 3⟩ ['a']).name ∧
    (¬ grib2Suffix <:+ ['a'] →
      (fetchTargetPath [] ⟨2020, 1, 2, 3⟩ ['a']).name = ['a'] ++ grib2Suffix) :=
  fetch_path_grib2_suffix [] (fun _ => CallOutcome.ok ()) [] ⟨2020, 1, 2, 3⟩ ['a']
    (fetchTargetPath [] ⟨2020, 1, 2, 3⟩ ['a']) (by decide)

/-- Claim C4: for every fetch target whose final local path already exists,
fetch_grib_files returns that existing path with no network request and with
the filesystem unchanged. -/
theorem fetch_existing_idempotent (files : List PyPath) (net : Nat → CallOutcome Unit)
    (basepath : List String) (it : InitTime) (file : List Char)
    (h : fetchTargetPath basepath it file ∈ files) :
    fetch_grib_files files net basepath it file =
      { result := .ok (fetchTargetPath basepath it file), files := files,
        netCalls := 0 } := by
  rw [fetch_grib_files, if_pos h]

theorem fetch_existing_idempotent_witness :
    fetch_grib_files [fetchTargetPath [] ⟨2020, 1, 2, 3⟩ ['a']] (fun _ => .ok ()) []
        ⟨2020, 1, 2, 3⟩ ['a'] =
      { result := .ok (fetchTargetPath [] ⟨2020, 1, 2, 3⟩ ['a']),
        files := [fetchTargetPath [] ⟨2020, 1, 2, 3⟩ ['a']], netCalls := 0 } :=
  fetch_existing_idempotent _ _ _ _ _ (by decide)

/-- Claim C5 as frozen is false on the probe-failure half: a probe failure
that is not an aiohttp.ClientOSError (e.g. ServerDisconnectedError or a
timeout) is not caught by check_next_inittime, so the exception propagates
instead of the function returning false. -/
theorem check_next_inittime_raises_cex :
    check_next_inittime (fun _ _ => HeadOutcome.otherExc) 6 0 = .error () ∧
    check_next_inittime (fun _ _ => HeadOutcome.otherExc) 6 0 ≠ .ok false := by
  decide

/-- Claim C5 (amended): check_next_inittime returns true only on a definitive
HTTP 200 for the next run's (t + freq) offset-0 file; a non-200 status or a
ClientOSError connection failure returns false; any other probe exception is
not caught and propagates to the caller instead of returning false. -/
theorem check_next_inittime_behavior (probe : Int → Nat → HeadOutcome) (freq t : Int) :
    (check_next_inittime probe freq t = .ok true ↔ probe (t + freq) 0 = .status 200) ∧
    (∀ c, c ≠ 200 → probe (t + freq) 0 = .status c →
      check_next_inittime probe freq t = .ok false) ∧
    (probe (t + freq) 0 = .clientOSError → check_next_inittime probe freq t = .ok false) ∧
    (probe (t + freq) 0 = .otherExc → check_next_inittime probe freq t = .error ()) := by
  unfold check_next_inittime
  cases hp : probe (t + freq) 0 with
  | status code =>
    refine ⟨⟨fun h => ?_, fun h => ?_⟩, fun c hc hpc => ?_, fun h => ?_, fun h => ?_⟩
    · injection h with h1
      rw [show code = 200 from eq_of_beq h1]
    · injection h with h1
      rw [h1]
      rfl
    · injection hpc with h1
      rw [← h1] at hc
      show Except.ok (code == 200) = Except.ok false
      rw [beq_eq_false_iff_ne.mpr hc]
    · exact absurd h (by simp)
    · exact absurd h (by simp)
  | clientOSError =>
    refine ⟨⟨fun h => ?_, fun h => ?_⟩, fun c hc hpc => ?_, fun h => ?_, fun h => ?_⟩
    · exact absurd h (by simp)
    · exact absurd h (by simp)
    · exact absurd hpc (by simp)
    · rfl
    · exact absurd h (by simp)
  | otherExc =>
    refine ⟨⟨fun h => ?_, fun h => ?_⟩, fun c hc hpc => ?_, fun h => ?_, fun h => ?_⟩
    · exact absurd h (by simp)
    · exact absurd h (by simp)
    · exact absurd hpc (by simp)
    · exact absurd h (by simp)
    · rfl

theorem check_next_inittime_behavior_witness :
    check_next_inittime (fun _ _ => HeadOutcome.clientOSError) 6 0 = .ok false :=
  (check_next_inittime_behavior (fun _ _ => HeadOutcome.clientOSError) 6 0).2.2.1 rfl

theorem ftr_step (env : PollEnv) (maxRun dt freq trun : Int) (fuel tgt : Nat)
    (rest : List Nat) (fm : Option Int) (clock : Int) (acc : List Nat) :
    files_to_retrieve env maxRun dt freq trun (fuel + 1) (tgt :: rest) fm clock acc =
      match env.probe clock tgt with
      | some mt =>
        files_to_retrieve env maxRun dt freq trun fuel rest (some (fm.getD mt)) clock
          (acc ++ [tgt])
      | none =>
        match fm with
        | some anchor =>
          if anchor + maxRun < clock then
            match check_next_inittime (env.nextHead clock) freq trun with
            | .error _ => .aborted acc
            | .ok true => .abandoned acc clock
            | .ok false =>
              files_to_retrieve env maxRun dt freq trun fuel (tgt :: rest) fm (clock + dt) acc
          else
            files_to_retrieve env maxRun dt freq trun fuel (tgt :: rest) fm (clock + dt) acc
        | none =>
          files_to_retrieve env maxRun dt freq trun fuel (tgt :: rest) fm (clock + dt) acc :=
  rfl

theorem ftr_abandoned_nonempty (env : PollEnv) (maxRun dt freq trun : Int) :
    ∀ fuel targets fm clock acc, (fm ≠ none → acc ≠ []) →
    ∀ ys c, files_to_retrieve env maxRun dt freq trun fuel targets fm clock acc =
      .abandoned ys c → ys ≠ [] := by
  intro fuel
  induction fuel with
  | zero =>
    intro targets fm clock acc hinv ys c h
    simp [files_to_retrieve] at h
  | succ fuel ih =>
    intro targets fm clock acc hinv ys c h
    cases targets with
    | nil => simp [files_to_retrieve] at h
    | cons tgt rest =>
      rw [ftr_step] at h
      cases hpr : env.probe clock tgt with
      | some mt =>
        rw [hpr] at h
        exact ih rest (some (fm.getD mt)) clock (acc ++ [tgt]) (fun _ => by simp) ys c h
      | none =>
        rw [hpr] at h
        simp only [] at h
        cases fm with
        | none => exact ih _ _ _ _ (fun hn => absurd rfl hn) ys c h
        | some anchor =>
          simp only [] at h
          by_cases hlate : anchor + maxRun < clock
          · rw [if_pos hlate] at h
            cases hchk : check_next_inittime (env.nextHead clock) freq trun with
            | error e => rw [hchk] at h; simp at h
            | ok b =>
              cases b with
              | true =>
                rw [hchk] at h
                simp only [] at h
                injection h with h1 h2
                rw [← h1]
                exact hinv (by simp)
              | false =>
                rw [hchk] at h
                exact ih _ _ _ _ hinv ys c h
          · rw [if_neg hlate] at h
            exact ih _ _ _ _ hinv ys c h

/-- Claim C1 as frozen is false: in envRollover the run is abandoned by
rollover detection (files_to_retrieve returns early after yielding only
target 0 of [0, 1]), yet _run_loop converts and optimizes the
partially-downloaded set and produces the completed artifact from it. -/
theorem run_abandoned_still_converts_cex :
    run_once envRollover 10 60 6 0 3 [0, 1] 100 true true =
      some { fetched := [0], abandoned := true, convCalled := true, optCalled := true,
             artifact := true, gribsDeleted := true, raised := false } := by
  decide

/-- Claim C1 (amended): a run abandoned by rollover detection always has at
least one file already fetched (the rollover check only runs once the first
file's Last-Modified anchor exists), and _run_loop then converts and
optimizes that partial set exactly as for a completed run — when both
collaborators succeed, a completed artifact is produced from the partial
set.  An abandoned run does not end without output. -/
theorem run_abandoned_converts (env : PollEnv) (maxRun dt freq trun : Int)
    (fuel : Nat) (targets : List Nat) (t0 : Int) (convOk optOk : Bool) (r : RunReport)
    (h : run_once env maxRun dt freq trun fuel targets t0 convOk optOk = some r)
    (hab : r.abandoned = true) :
    r.fetched ≠ [] ∧ r.convCalled = true ∧ (convOk = true → r.optCalled = true) ∧
    (convOk = true → optOk = true → r.artifact = true) := by
  rw [run_once] at h
  cases hftr : files_to_retrieve env maxRun dt freq trun fuel targets none t0 [] with
  | completed ys c =>
    rw [hftr] at h
    injection h with h1
    rw [← h1, finishRun] at hab
    split at hab <;> simp at hab
  | abandoned ys c =>
    rw [hftr] at h
    injection h with h1
    have hne : ys ≠ [] := ftr_abandoned_nonempty env maxRun dt freq trun fuel targets
      none t0 [] (fun hn => absurd rfl hn) ys c hftr
    have hlen : ys.length ≠ 0 := fun h0 => hne (List.length_eq_zero.mp h0)
    rw [← h1, finishRun, if_pos hlen]
    refine ⟨hne, rfl, fun hc => hc, fun hc ho => ?_⟩
    rw [hc, ho]
    rfl
  | aborted ys => rw [hftr] at h; exact absurd h (by simp)
  | outOfFuel ys => rw [hftr] at h; exact absurd h (by simp)

/-- Claim C6 as frozen is false on the preservation half: the finally block
of optimize_netcdf unlinks the intermediate netCDF file unconditionally, so
on failure the intermediate artifact is removed rather than preserved for
diagnosis. -/
theorem optimize_failure_removes_intermediate_cex :
    optimize_netcdf ["raw", "nc"] "nc" "out" "t" false =
      { raised := true, files := ["raw"] } ∧
    "nc" ∉ (optimize_netcdf ["raw", "nc"] "nc" "out" "t" false).files := by
  decide

/-- Claim C6 (amended): when optimize_netcdf fails it removes its own
temporary output file and also the intermediate netCDF input (the finally
block unlinks nctmpfile unconditionally) and propagates the error; every
other file — in particular the raw downloaded grib files — is preserved. -/
theorem optimize_failure_cleanup (files : List String)
    (nctmpfile final_path tmp_path : String) (htmp : tmp_path ∉ files) :
    (optimize_netcdf files nctmpfile final_path tmp_path false).raised = true ∧
    (optimize_netcdf files nctmpfile final_path tmp_path false).files =
      files.erase nctmpfile ∧
    tmp_path ∉ (optimize_netcdf files nctmpfile final_path tmp_path false).files ∧
    ∀ p, p ∈ files → p ≠ nctmpfile →
      p ∈ (optimize_netcdf files nctmpfile final_path tmp_path false).files := by
  have hf : (optimize_netcdf files nctmpfile final_path tmp_path false).files =
      files.erase nctmpfile := by
    simp [optimize_netcdf, List.erase_cons_head]
  refine ⟨by simp [optimize_netcdf], hf, ?_, ?_⟩
  · rw [hf]
    intro hmem
    exact htmp (List.mem_of_mem_erase hmem)
  · intro p hp hne
    rw [hf]
    exact (List.mem_erase_of_ne hne).mpr hp

theorem optimize_failure_cleanup_witness :
    (optimize_netcdf ["raw", "nc"] "nc" "out" "t" false).raised = true ∧
    (optimize_netcdf ["raw", "nc"] "nc" "out" "t" false).files =
      ["raw", "nc"].erase ("nc") ∧
    "t" ∉ (optimize_netcdf ["raw", "nc"] "nc" "out" "t" false).files ∧
    ∀ p, p ∈ ["raw", "nc"] → p ≠ "nc" →
      p ∈ (optimize_netcdf ["raw", "nc"] "nc" "out" "t" false).files :=
  optimize_failure_cleanup ["raw", "nc"] "nc" "out" "t" (by decide)

theorem run_abandoned_converts_witness :
    ({ fetched := [0], abandoned := true, convCalled := true, optCalled := true,
       artifact := true, gribsDeleted := true, raised := false } : RunReport).fetched ≠ [] ∧
    ({ fetched := [0], abandoned := true, convCalled := true, optCalled := true,
       artifact := true, gribsDeleted := true, raised := false } : RunReport).convCalled = true ∧
    (true = true →
      ({ fetched := [0], abandoned := true, convCalled := true, optCalled := true,
         artifact := true, gribsDeleted := true, raised := false } : RunReport).optCalled = true) ∧
    (true = true → true = true →
      ({ fetched := [0], abandoned := true, convCalled := true, optCalled := true,
         artifact := true, gribsDeleted := true, raised := false } : RunReport).artifact = true) :=
  run_abandoned_converts envRollover 10 60 6 0 3 [0, 1] 100 true true
    { fetched := [0], abandoned := true, convCalled := true, optCalled := true,
      artifact := true, gribsDeleted := true, raised := false } (by decide) (by decide)

theorem foldl_min_le (xs : List Int) : ∀ a y, y ∈ a :: xs → xs.foldl min a ≤ y := by
  induction xs with
  | nil =>
    intro a y hy
    rw [List.mem_singleton] at hy
    simp [hy]
  | cons x xs ih =>
    intro a y hy
    simp only [List.foldl_cons]
    have hseed : xs.foldl min (min a x) ≤ min a x :=
      ih (min a x) (min a x) (List.mem_cons_self _ _)
    rcases List.mem_cons.mp hy with h1 | h2
    · rw [h1]
      exact le_trans hseed (min_le_left a x)
    · rcases List.mem_cons.mp h2 with h3 | h4
      · rw [h3]
        exact le_trans hseed (min_le_right a x)
      · exact ih (min a x) y (List.mem_cons_of_mem _ h4)

theorem foldl_min_mem (xs : List Int) : ∀ a, xs.foldl min a ∈ a :: xs := by
  induction xs with
  | nil => intro a; simp
  | cons x xs ih =>
    intro a
    simp only [List.foldl_cons]
    rcases List.mem_cons.mp (ih (min a x)) with h1 | h2
    · rcases min_choice a x with hm | hm
      · rw [h1, hm]
        exact List.mem_cons_self _ _
      · rw [h1, hm]
        exact List.mem_cons_of_mem _ (List.mem_cons_self _ _)
    · exact List.mem_cons_of_mem _ (List.mem_cons_of_mem _ h2)

theorem foldl_max_ge (xs : List Int) : ∀ a y, y ∈ a :: xs → y ≤ xs.foldl max a := by
  induction xs with
  | nil =>
    intro a y hy
    rw [List.mem_singleton] at hy
    simp [hy]
  | cons x xs ih =>
    intro a y hy
    simp only [List.foldl_cons]
    have hseed : max a x ≤ xs.foldl max (max a x) :=
      ih (max a x) (max a x) (List.mem_cons_self _ _)
    rcases List.mem_cons.mp hy with h1 | h2
    · rw [h1]
      exact le_trans (le_max_left a x) hseed
    · rcases List.mem_cons.mp h2 with h3 | h4
      · rw [h3]
        exact le_trans (le_max_right a x) hseed
      · exact ih (max a x) y (List.mem_cons_of_mem _ h4)

theorem foldl_max_mem (xs : List Int) : ∀ a, xs.foldl max a ∈ a :: xs := by
  induction xs with
  | nil => intro a; simp
  | cons x xs ih =>
    intro a
    simp only [List.foldl_cons]
    rcases List.mem_cons.mp (ih (max a x)) with h1 | h2
    · rcases max_choice a x with hm | hm
      · rw [h1, hm]
        exact List.mem_cons_self _ _
      · rw [h1, hm]
        exact List.mem_cons_of_mem _ (List.mem_cons_self _ _)
    · exact List.mem_cons_of_mem _ (List.mem_cons_of_mem _ h2)

theorem startup_scan_eq_foldl (arts : List Run4) (freqH : Nat) :
    ∀ (dirs : List DirEntry) (acc : List Int × Int),
      dirs.foldl (fun acc dir =>
        match dir with
        | .d8 y m d =>
          (rangeStep 24 freqH).foldl (fun a hr => scanStep arts a (y, m, d, (hr : Int))) acc
        | .d10 y m d h => scanStep arts acc (y, m, d, h)) acc =
      (discoveredRuns freqH dirs).foldl (scanStep arts) acc := by
  intro dirs
  induction dirs with
  | nil => intro acc; rfl
  | cons dir rest ih =>
    intro acc
    rw [List.foldl_cons, discoveredRuns, List.foldl_append, ih]
    cases dir with
    | d8 y m d =>
      congr 1
      rw [dirRuns, List.foldl_map]
    | d10 y m d h =>
      congr 1

theorem scan_foldl_partition (arts : List Run4) :
    ∀ (runs : List Run4) (acc : List Int × Int),
      runs.foldl (scanStep arts) acc =
        (acc.1 ++ (runs.filter (fun r => decide (r ∉ arts))).map ts4,
         ((runs.filter (fun r => decide (r ∈ arts))).map ts4).foldl max acc.2) := by
  intro runs
  induction runs with
  | nil => intro acc; simp
  | cons r rest ih =>
    intro acc
    rw [List.foldl_cons, ih]
    by_cases hr : r ∈ arts
    · rw [scanStep, if_pos hr]
      simp [List.filter_cons, hr]
    · rw [scanStep, if_neg hr]
      simp [List.filter_cons, hr]

theorem startup_scan_spec (arts : List Run4) (freqH : Nat) (dirs : List DirEntry) :
    startup_scan arts freqH dirs =
      ((incompleteRuns arts freqH dirs).map ts4,
       (((discoveredRuns freqH dirs).filter (fun r => decide (r ∈ arts))).map ts4).foldl
         max firstTS) := by
  rw [startup_scan, startup_scan_eq_foldl, scan_foldl_partition, incompleteRuns]
  simp

/-- Claim C2 as frozen is false at the sentinel: when the only discovered run
is 2000-01-01T00Z and its artifact exists locally, every discovered run has
an artifact, so the claim demands the most recent run's timestamp plus one
update interval, but startup_find_next_runtime raises instead (max_time
never exceeded the year-2000 sentinel the fold starts from). -/
theorem startup_sentinel_cex :
    startup_find_next_runtime [(2000, 1, 1, 0)] 6 [.d10 2000 1 1 0] = .error () ∧
    startup_find_next_runtime [(2000, 1, 1, 0)] 6 [.d10 2000 1 1 0] ≠
      .ok (tsHours 2000 1 1 0 + 6) := by
  decide

/-- Claim C2 (amended): for every set of remote run directories discovered at
startup, if at least one discovered run lacks a local output artifact then
startup_find_next_runtime returns the earliest (minimum-timestamp) such
incomplete run; if every discovered run has a local artifact and at least
one discovered run is later than the 2000-01-01T00Z sentinel, it returns the
most recent run's timestamp plus one updateInterval (when all runs lie at or
before the sentinel it raises instead — see the counterexample). -/
theorem startup_resume_selects (arts : List Run4) (freqH : Nat) (dirs : List DirEntry)
    (hfreq : 0 < freqH) :
    (incompleteRuns arts freqH dirs ≠ [] →
      startup_find_next_runtime arts freqH dirs =
        .ok (minI ((incompleteRuns arts freqH dirs).map ts4)) ∧
      minI ((incompleteRuns arts freqH dirs).map ts4) ∈
        (incompleteRuns arts freqH dirs).map ts4 ∧
      ∀ u ∈ (incompleteRuns arts freqH dirs).map ts4,
        minI ((incompleteRuns arts freqH dirs).map ts4) ≤ u) ∧
    (incompleteRuns arts freqH dirs = [] →
      (∃ r ∈ discoveredRuns freqH dirs, firstTS < ts4 r) →
      startup_find_next_runtime arts freqH dirs =
        .ok (((discoveredRuns freqH dirs).map ts4).foldl max firstTS + (freqH : Int)) ∧
      ((discoveredRuns freqH dirs).map ts4).foldl max firstTS ∈
        (discoveredRuns freqH dirs).map ts4 ∧
      ∀ u ∈ (discoveredRuns freqH dirs).map ts4,
        u ≤ ((discoveredRuns freqH dirs).map ts4).foldl max firstTS) := by
  constructor
  · intro hne
    cases hinc : (incompleteRuns arts freqH dirs).map ts4 with
    | nil =>
      exfalso
      exact hne (List.map_eq_nil_iff.mp hinc)
    | cons x xs =>
      refine ⟨?_, ?_, ?_⟩
      · rw [startup_find_next_runtime, startup_scan_spec, hinc, minI]
      · exact foldl_min_mem xs x
      · exact foldl_min_le xs x
  · intro hinc hex
    have hall : ∀ r ∈ discoveredRuns freqH dirs, r ∈ arts := by
      intro r hr
      have := List.filter_eq_nil_iff.mp hinc r hr
      simpa using this
    have hfilter : (discoveredRuns freqH dirs).filter (fun r => decide (r ∈ arts)) =
        discoveredRuns freqH dirs := by
      apply List.filter_eq_self.mpr
      intro r hr
      simpa using hall r hr
    have hmax : ∀ u ∈ (discoveredRuns freqH dirs).map ts4,
        u ≤ ((discoveredRuns freqH dirs).map ts4).foldl max firstTS := by
      intro u hu
      exact foldl_max_ge _ firstTS u (List.mem_cons_of_mem _ hu)
    have hgt : firstTS < ((discoveredRuns freqH dirs).map ts4).foldl max firstTS := by
      obtain ⟨r, hr, hlt⟩ := hex
      exact lt_of_lt_of_le hlt (hmax (ts4 r) (List.mem_map_of_mem ts4 hr))
    have hmem : ((discoveredRuns freqH dirs).map ts4).foldl max firstTS ∈
        (discoveredRuns freqH dirs).map ts4 := by
      rcases List.mem_cons.mp (foldl_max_mem ((discoveredRuns freqH dirs).map ts4) firstTS)
        with h1 | h2
      · exfalso
        rw [h1] at hgt
        exact lt_irrefl _ hgt
      · exact h2
    refine ⟨?_, hmem, hmax⟩
    rw [startup_find_next_runtime, startup_scan_spec, incompleteRuns] at *
    rw [hinc]
    simp only [List.map_nil]
    rw [hfilter, if_pos hgt]

theorem startup_resume_selects_witness :
    startup_find_next_runtime [(2020, 1, 1, 0)] 6 [.d8 2020 1 1] =
      .ok (minI ((incompleteRuns [(2020, 1, 1, 0)] 6 [.d8 2020 1 1]).map ts4)) ∧
    minI ((incompleteRuns [(2020, 1, 1, 0)] 6 [.d8 2020 1 1]).map ts4) ∈
      (incompleteRuns [(2020, 1, 1, 0)] 6 [.d8 2020 1 1]).map ts4 ∧
    ∀ u ∈ (incompleteRuns [(2020, 1, 1, 0)] 6 [.d8 2020 1 1]).map ts4,
      minI ((incompleteRuns [(2020, 1, 1, 0)] 6 [.d8 2020 1 1]).map ts4) ≤ u :=
  (startup_resume_selects [(2020, 1, 1, 0)] 6 [.d8 2020 1 1] (by decide)).1 (by decide)

/-- Claim C7: if the startup scan discovers no remote run directories at all,
startup_find_next_runtime raises a fatal ValueError instead of returning a
run identity. -/
theorem startup_no_dirs_fatal (arts : List Run4) (freqH : Nat) :
    startup_find_next_runtime arts freqH [] = .error () := rfl

/-- Claim C8: for every previous run time t, next_run_time returns
t + k * updateInterval for the smallest k ≥ 1 such that the run at
t + k * updateInterval has no local artifact; every intermediate run whose
artifact exists locally is skipped (with enough fuel to model the source's
unbounded recursion). -/
theorem next_run_skips_existing (ha : Int → Bool) (freq t : Int) (k fuel : Nat)
    (hk : 1 ≤ k) (hfuel : k ≤ fuel)
    (hmid : ∀ i : Nat, 1 ≤ i → i < k → ha (t + (i : Int) * freq) = true)
    (hend : ha (t + (k : Int) * freq) = false) :
    next_run_time ha freq fuel t = some (t + (k : Int) * freq) := by
  obtain ⟨k1, rfl⟩ : ∃ k1, k = k1 + 1 := ⟨k - 1, by omega⟩
  clear hk
  induction k1 generalizing t fuel with
  | zero =>
    obtain ⟨f1, rfl⟩ : ∃ f1, fuel = f1 + 1 := ⟨fuel - 1, by omega⟩
    have hend1 : ha (t + freq) = false := by
      have e : t + ((0 + 1 : Nat) : Int) * freq = t + freq := by push_cast; ring
      rw [e] at hend
      exact hend
    rw [next_run_time, hend1]
    simp only [Bool.false_eq_true, if_false]
    congr 1
    push_cast
    ring
  | succ k1 ih =>
    obtain ⟨f1, rfl⟩ : ∃ f1, fuel = f1 + 1 := ⟨fuel - 1, by omega⟩
    have h1 : ha (t + freq) = true := by
      have := hmid 1 (by omega) (by omega)
      have e : t + ((1 : Nat) : Int) * freq = t + freq := by push_cast; ring
      rw [e] at this
      exact this
    rw [next_run_time, h1]
    simp only [if_true]
    have hmid2 : ∀ i : Nat, 1 ≤ i → i < k1 + 1 →
        ha (t + freq + (i : Int) * freq) = true := by
      intro i hi1 hi2
      have e : t + freq + (i : Int) * freq = t + ((i + 1 : Nat) : Int) * freq := by
        push_cast; ring
      rw [e]
      exact hmid (i + 1) (by omega) (by omega)
    have hend2 : ha (t + freq + ((k1 + 1 : Nat) : Int) * freq) = false := by
      have e : t + freq + ((k1 + 1 : Nat) : Int) * freq =
          t + ((k1 + 1 + 1 : Nat) : Int) * freq := by push_cast; ring
      rw [e]
      exact hend
    have hrec := ih (t + freq) f1 (by omega) hmid2 hend2
    rw [hrec]
    congr 1
    push_cast
    ring

theorem next_run_skips_existing_witness :
    next_run_time (fun x => decide (x = 6)) 6 5 0 = some (0 + ((2 : Nat) : Int) * 6) := by
  exact next_run_skips_existing (fun x => decide (x = 6)) 6 0 2 5 (by omega) (by omega)
    (fun i hi1 hi2 => by
      have hi : i = 1 := by omega
      rw [hi]
      decide)
    (by decide)
